import Mathlib

/-!
Verification development for the PokeSetSmith set generator
(`src/showdown.py`).  The computational core of the program is embedded
shallowly below:

* `calc_stat` — the stat formula evaluator (`calc_stat`, lines 281-286);
  the Python expression `math.floor(inner * nature_mult + 1e-9)` is
  embedded in exact rational arithmetic: the nature multiplier is a
  rational number `m` and the floor is computed as an integer division on
  the fraction `(inner·m.num·10⁹ + m.den) / (m.den·10⁹)`, which equals
  `⌊inner·m + 10⁻⁹⌋` (proved in `calc_stat_eq_floor` below).
* `get_nature_multiplier` and `NATURE_EFFECTS` (lines 68-74, 288-299).
* `reverse_calc_iv_ev_for_stat` — the IV/EV reverse solver
  (lines 301-317): brute-force enumeration, Python's stable
  `sort(key=lambda x: (-x[0], x[1]))` followed by taking the first
  element is embedded as `insertionSort` with the total order `solRel`
  followed by `head?` (the sorted permutation of a list of distinct
  pairs under a total antisymmetric order is unique, so the choice of
  sorting algorithm is immaterial).
* `ev_only_scan` — the "assume IV fixed" secondary mode in
  `generate_set` (lines 588-602): first matching EV via `find?`.
* `clamp_ev_distribution` — the EV budget normalizer (lines 319-342);
  the `while` loop is embedded with an explicit fuel argument equal to
  the starting total; the loop decrements its `total` variable by 4 on
  every iteration, so `total` iterations of fuel are always enough for
  the loop to reach its exit condition.
* `validate_input` — the autocorrect engine (lines 228-278).
  `difflib.get_close_matches` is Python standard-library code, not part
  of this repository, and is abstracted as the function parameter
  `close_matches`; the interactive y/n answers of prompt mode are
  abstracted as the predicate `says_yes`.  Python string primitives
  used by the source (`strip`, `lower`, `replace("_"," ")`, `title`,
  substring test) are embedded explicitly over `List Char`.
-/

/-- Embedding of `calc_stat(base, iv, ev, level, nature_mult, is_hp)`
(src/showdown.py lines 281-286).  `ev / 4`, `· / 100` are the integer
(floor) divisions performed by `//` and `math.floor` in the source; the
non-HP branch computes `⌊inner · nature_mult + 10⁻⁹⌋` (see
`calc_stat_eq_floor`). -/
def calc_stat (base iv ev level : ℕ) (nature_mult : ℚ) (is_hp : Bool) : ℤ :=
  if is_hp then
    ((2 * base + iv + ev / 4) * level / 100 + level + 10 : ℕ)
  else
    let inner : ℕ := (2 * base + iv + ev / 4) * level / 100 + 5
    ((inner : ℤ) * nature_mult.num * 1000000000 + (nature_mult.den : ℤ)) /
      ((nature_mult.den : ℤ) * 1000000000)

/-- Embedding of `NATURE_EFFECTS` (src/showdown.py lines 68-74):
nature name ↦ (increased stat, decreased stat). -/
def NATURE_EFFECTS : List (String × String × String) :=
  [("Lonely", "atk", "def"), ("Brave", "atk", "spe"),
   ("Adamant", "atk", "spa"), ("Naughty", "atk", "spd"),
   ("Bold", "def", "atk"), ("Relaxed", "def", "spe"),
   ("Impish", "def", "spa"), ("Lax", "def", "spd"),
   ("Modest", "spa", "atk"), ("Mild", "spa", "def"),
   ("Quiet", "spa", "spe"), ("Rash", "spa", "spd"),
   ("Calm", "spd", "atk"), ("Gentle", "spd", "def"),
   ("Sassy", "spd", "spe"), ("Careful", "spd", "spa"),
   ("Timid", "spe", "atk"), ("Hasty", "spe", "def"),
   ("Jolly", "spe", "spa"), ("Naive", "spe", "spd")]

/-- Embedding of `get_nature_multiplier(nature, stat_key)`
(src/showdown.py lines 288-299).  `None` is `none`; the Python guard
`if not nature` is also true for the empty string.  The float literals
`1.1`, `0.9`, `1.0` are the exact rationals they denote. -/
def get_nature_multiplier (nature : Option String) (stat_key : String) : ℚ :=
  match nature with
  | none => 1
  | some n =>
    if n = "" then 1
    else
      match NATURE_EFFECTS.find? (fun p => p.1 == n) with
      | none => 1
      | some (_, inc, dcr) =>
        if stat_key = inc then mkRat 11 10
        else if stat_key = dcr then mkRat 9 10
        else 1

/-- The EV enumeration `range(0, 253, 4)` of the source: 0, 4, …, 252. -/
def evRange : List ℕ := (List.range 64).map (fun k => 4 * k)

/-- The `solutions` list built by `reverse_calc_iv_ev_for_stat`
(src/showdown.py lines 306-313), in the source's enumeration order. -/
def solutionsList (observed : ℤ) (base level : ℕ) (nature_mult : ℚ)
    (is_hp : Bool) (max_iv : ℕ) : List (ℕ × ℕ) :=
  (List.range (max_iv + 1)).flatMap (fun iv =>
    (evRange.filter (fun ev =>
      calc_stat base iv ev level nature_mult is_hp == observed)).map
      (fun ev => (iv, ev)))

/-- The sort order of `solutions.sort(key=lambda x: (-x[0], x[1]))`:
ascending in the key `(-iv, ev)`, i.e. descending IV, then ascending
EV. -/
def solRel (a b : ℕ × ℕ) : Prop := b.1 < a.1 ∨ (a.1 = b.1 ∧ a.2 ≤ b.2)

instance : DecidableRel solRel := fun a b =>
  inferInstanceAs (Decidable (b.1 < a.1 ∨ (a.1 = b.1 ∧ a.2 ≤ b.2)))

instance : IsTotal (ℕ × ℕ) solRel :=
  ⟨fun a b => by simp only [solRel]; omega⟩

instance : IsTrans (ℕ × ℕ) solRel :=
  ⟨fun a b c => by simp only [solRel]; omega⟩

/-- Embedding of `reverse_calc_iv_ev_for_stat(observed, base, level,
nature_mult, is_hp, max_iv)` (src/showdown.py lines 301-317): collect
all matching (iv, ev) pairs, sort by the key `(-iv, ev)`, return the
first, or `None` when the list is empty.  The list holds distinct
pairs and `solRel` is a total, transitive, antisymmetric order on
them, so the sorted permutation produced by Python's `list.sort` is
unique; `insertionSort` computes exactly it. -/
def reverse_calc_iv_ev_for_stat (observed : ℤ) (base level : ℕ)
    (nature_mult : ℚ) (is_hp : Bool) (max_iv : ℕ) : Option (ℕ × ℕ) :=
  ((solutionsList observed base level nature_mult is_hp max_iv).insertionSort
    solRel).head?

/-- Embedding of the "IVs are assumed; back-calc EV only" loop of
`generate_set` (src/showdown.py lines 588-602): scan `ev` in
0, 4, …, 252 with the IV held at `iv_assumed` and return the first EV
whose computed stat matches, else `None`. -/
def ev_only_scan (observed : ℤ) (base iv_assumed level : ℕ)
    (nature_mult : ℚ) (is_hp : Bool) : Option ℕ :=
  evRange.find? (fun ev =>
    calc_stat base iv_assumed ev level nature_mult is_hp == observed)

/-- The six stat keys of `STAT_KEYS` (src/showdown.py line 76). -/
inductive StatKey where
  | hp
  | atk
  | df
  | spa
  | spd
  | spe
deriving DecidableEq, Fintype

/-- `STAT_KEYS = ['hp','atk','def','spa','spd','spe']`: the fixed
enumeration (and dict insertion) order of the six stats. -/
def STAT_KEYS : List StatKey :=
  [StatKey.hp, StatKey.atk, StatKey.df, StatKey.spa, StatKey.spd, StatKey.spe]

/-- `sum(evs.values())` for an EV mapping whose keys are the six stat
keys in `STAT_KEYS` order. -/
def sumEvs (evs : StatKey → ℕ) : ℕ := (STAT_KEYS.map evs).sum

/-- One step of the `for s, v in ev_list: if v > max_ev: …` scan of
`clamp_ev_distribution` (src/showdown.py lines 331-334): the running
accumulator is `(stat_to_reduce, max_ev)`, updated only on a strictly
greater value. -/
def findMaxStep (acc : Option StatKey × ℕ) (p : StatKey × ℕ) :
    Option StatKey × ℕ :=
  if acc.2 < p.2 then (some p.1, p.2) else acc

/-- The full scan for the stat holding the strictly maximal EV,
starting from `stat_to_reduce = None`, `max_ev = 0`. -/
def findMax (l : List (StatKey × ℕ)) : Option StatKey × ℕ :=
  l.foldl findMaxStep (none, 0)

/-- `evs[stat_to_reduce] = v`: dict update at one key. -/
def setEv (evs : StatKey → ℕ) (st : StatKey) (v : ℕ) : StatKey → ℕ :=
  fun s => if s = st then v else evs s

/-- The `while total > 510` loop of `clamp_ev_distribution`
(src/showdown.py lines 327-341), with an explicit fuel argument.  Each
iteration decrements the loop's `total` variable by exactly 4, so any
fuel of at least `total` iterations is beyond the loop's own exit
condition; `clamp_ev_distribution` passes `total` itself as fuel. -/
def clampLoop : ℕ → (StatKey → ℕ) → ℕ → (StatKey → ℕ)
  | 0, evs, _ => evs
  | fuel + 1, evs, total =>
    if 510 < total then
      match findMax (STAT_KEYS.map (fun s => (s, evs s))) with
      | (none, _) => evs
      | (some st, max_ev) =>
        if max_ev ≤ 0 then evs
        else clampLoop fuel (setEv evs st (max 0 (evs st - 4))) (total - 4)
    else evs

/-- Embedding of `clamp_ev_distribution(evs)` (src/showdown.py lines
319-342). -/
def clamp_ev_distribution (evs : StatKey → ℕ) : StatKey → ℕ :=
  let total := sumEvs evs
  if total ≤ 510 then evs else clampLoop total evs total

/-- The concrete scenario input with Attack = SpecialAttack = Speed =
252 and the other three stats 0 (input total 756). -/
def evs756 : StatKey → ℕ := fun s =>
  match s with
  | StatKey.atk => 252
  | StatKey.spa => 252
  | StatKey.spe => 252
  | _ => 0

/-- Python `str.strip()` over the character list. -/
def stripChars (l : List Char) : List Char :=
  ((l.dropWhile Char.isWhitespace).reverse.dropWhile Char.isWhitespace).reverse

/-- Python `str.strip()`. -/
def pyStrip (s : String) : String := String.mk (stripChars s.data)

/-- Python `str.lower()`. -/
def pyLower (s : String) : String := String.mk (s.data.map Char.toLower)

/-- Python `str.replace("_", " ")`: the pattern is a single character,
so the replacement is a character map. -/
def underscoreToSpace (s : String) : String :=
  String.mk (s.data.map (fun c => if c = '_' then ' ' else c))

/-- Python `str.title()`: a letter is upper-cased when the previous
character is not a letter, lower-cased otherwise; other characters are
kept.  The boolean argument tracks whether the previous character was a
letter. -/
def titleMap : Bool → List Char → List Char
  | _, [] => []
  | prev_alpha, c :: cs =>
    (if c.isAlpha then (if prev_alpha then c.toLower else c.toUpper) else c) ::
      titleMap c.isAlpha cs

/-- Embedding of `title_case_showdown(s)` (src/showdown.py lines
110-112): `s.strip().replace("_"," ").title()`. -/
def title_case_showdown (s : String) : String :=
  String.mk (titleMap false (underscoreToSpace (pyStrip s)).data)

/-- Whether `needle` occurs at the very front of `hay`. -/
def leadsWith : List Char → List Char → Bool
  | [], _ => true
  | _ :: _, [] => false
  | a :: as, b :: bs => a == b && leadsWith as bs

/-- Python's `needle in hay` substring test. -/
def containsSub (hay needle : List Char) : Bool :=
  (List.range (hay.length + 1)).any (fun i => leadsWith needle (hay.drop i))

/-- The Python dict lookup `{v.lower(): v for v in valid_list}[key]`:
on duplicate lowered keys the later entry overwrites the earlier one,
so the lookup finds the last matching entry. -/
def lowMapLookup (valid_list : List String) (key : String) : Option String :=
  valid_list.reverse.find? (fun v => pyLower v == key)

/-- Embedding of `validate_input(user_input, valid_list,
autocorrect_mode, label)` (src/showdown.py lines 228-278).

`close_matches` abstracts `difflib.get_close_matches(t, valid_list,
n=3, cutoff=0.65)` (Python standard library, not repository code) and
`says_yes` abstracts the interactive y/n confirmations of prompt mode;
the `label` argument of the source only feeds console messages and is
dropped.  Modes: 1 prompt, 2 silent, 3 off. -/
def validate_input (close_matches : String → List String → List String)
    (says_yes : String → Bool) (user_input : String)
    (valid_list : List String) (autocorrect_mode : ℕ) : String :=
  if user_input = "" then user_input
  else
    let u := pyStrip user_input
    let u_norm := pyStrip (underscoreToSpace u)
    match lowMapLookup valid_list (pyLower u_norm) with
    | some v => v
    | none =>
      let t := title_case_showdown u_norm
      if t ∈ valid_list then t
      else
        let close0 := close_matches t valid_list
        let close :=
          if close0 = [] then
            (valid_list.filter (fun v =>
              containsSub (pyLower v).data (pyLower u_norm).data)).take 3
          else close0
        match close with
        | [] => u
        | c0 :: rest =>
          if autocorrect_mode = 3 then u
          else if autocorrect_mode = 2 then c0
          else if says_yes c0 then c0
          else
            match rest.find? (fun s => says_yes s) with
            | some s => s
            | none => u

/-! ### Helper lemmas about the reverse solver -/

lemma solRel_refl (a : ℕ × ℕ) : solRel a a := Or.inr ⟨rfl, le_refl _⟩

/-- Membership in the EV enumeration is exactly "multiple of 4, at
most 252". -/
lemma mem_evRange {ev : ℕ} : ev ∈ evRange ↔ 4 ∣ ev ∧ ev ≤ 252 := by
  simp only [evRange, List.mem_map, List.mem_range]
  constructor
  · rintro ⟨k, hk, rfl⟩
    exact ⟨⟨k, rfl⟩, by omega⟩
  · rintro ⟨⟨k, rfl⟩, hle⟩
    exact ⟨k, by omega, rfl⟩

/-- Characterisation of the `solutions` list built by the solver. -/
lemma mem_solutionsList {observed : ℤ} {base level : ℕ} {m : ℚ}
    {is_hp : Bool} {max_iv : ℕ} {p : ℕ × ℕ} :
    p ∈ solutionsList observed base level m is_hp max_iv ↔
      p.1 ≤ max_iv ∧ 4 ∣ p.2 ∧ p.2 ≤ 252 ∧
        calc_stat base p.1 p.2 level m is_hp = observed := by
  obtain ⟨iv, ev⟩ := p
  simp only [solutionsList, List.mem_flatMap, List.mem_map, List.mem_filter,
    List.mem_range, beq_iff_eq, Prod.mk.injEq]
  constructor
  · rintro ⟨iv', hiv', ev', ⟨hev', hcalc⟩, rfl, rfl⟩
    exact ⟨by omega, (mem_evRange.mp hev').1, (mem_evRange.mp hev').2, hcalc⟩
  · rintro ⟨hiv, hdvd, hle, hcalc⟩
    exact ⟨iv, by omega, ev, ⟨mem_evRange.mpr ⟨hdvd, hle⟩, hcalc⟩, rfl, rfl⟩

/-- When the solver answers `some x`, then `x` is a matching pair and
is `solRel`-least (highest IV, then lowest EV) among all matching
pairs. -/
lemma reverse_calc_some {observed : ℤ} {base level : ℕ} {m : ℚ}
    {is_hp : Bool} {max_iv : ℕ} {x : ℕ × ℕ}
    (h : reverse_calc_iv_ev_for_stat observed base level m is_hp max_iv = some x) :
    x ∈ solutionsList observed base level m is_hp max_iv ∧
      ∀ y ∈ solutionsList observed base level m is_hp max_iv, solRel x y := by
  unfold reverse_calc_iv_ev_for_stat at h
  rcases hl : (solutionsList observed base level m is_hp max_iv).insertionSort
      solRel with _ | ⟨a, t⟩
  · rw [hl] at h; exact absurd h (by simp)
  · rw [hl] at h
    simp only [List.head?_cons, Option.some.injEq] at h
    subst h
    have hsorted := List.sorted_insertionSort solRel
      (solutionsList observed base level m is_hp max_iv)
    rw [hl] at hsorted
    constructor
    · exact (List.mem_insertionSort solRel).mp (by rw [hl]; exact List.mem_cons_self a t)
    · intro y hy
      have hmem : y ∈ a :: t := by
        rw [← hl]
        exact (List.mem_insertionSort solRel).mpr hy
      rw [List.mem_cons] at hmem
      rcases hmem with rfl | hyt
      · exact solRel_refl _
      · exact List.rel_of_sorted_cons hsorted y hyt

/-- Nonempty solutions force a `some` answer. -/
lemma reverse_calc_isSome {observed : ℤ} {base level : ℕ} {m : ℚ}
    {is_hp : Bool} {max_iv : ℕ} {p : ℕ × ℕ}
    (h : p ∈ solutionsList observed base level m is_hp max_iv) :
    ∃ x, reverse_calc_iv_ev_for_stat observed base level m is_hp max_iv = some x := by
  unfold reverse_calc_iv_ev_for_stat
  rcases hl : (solutionsList observed base level m is_hp max_iv).insertionSort
      solRel with _ | ⟨a, t⟩
  · have := (List.mem_insertionSort solRel).mpr h
    rw [hl] at this
    exact absurd this (List.not_mem_nil p)
  · exact ⟨a, rfl⟩

/-- Earlier elements win in `find?` over a `≤`-sorted list of
naturals: the returned element is minimal among all matches. -/
lemma find?_min_of_sorted {p : ℕ → Bool} :
    ∀ {l : List ℕ}, l.Pairwise (· ≤ ·) → ∀ {b : ℕ}, l.find? p = some b →
      ∀ x ∈ l, p x = true → b ≤ x := by
  intro l
  induction l with
  | nil => intro _ b hb; simp at hb
  | cons a t ih =>
    intro hsorted b hb x hx hpx
    rcases List.pairwise_cons.mp hsorted with ⟨hat, ht⟩
    rw [List.find?_cons] at hb
    rcases hpa : p a with _ | _
    · rw [hpa] at hb
      rw [List.mem_cons] at hx
      rcases hx with rfl | hxt
      · rw [hpx] at hpa; exact absurd hpa (by simp)
      · exact ih ht hb x hxt hpx
    · rw [hpa] at hb
      simp only [Option.some.injEq] at hb
      subst hb
      rw [List.mem_cons] at hx
      rcases hx with rfl | hxt
      · exact le_refl x
      · exact hat x hxt

/-- The EV enumeration is ascending. -/
lemma evRange_sorted : evRange.Pairwise (· ≤ ·) := by decide

/-! ### Claim theorems: the reverse solver -/

/-- C1: round-trip inverse consistency.  For base ≥ 0 (any natural
number), level in [1,100], multiplier in {0.9, 1.0, 1.1}, any HP flag,
iv in [0,31] and ev a multiple of 4 in [0,252], the reverse solver
applied to the stat computed by `calc_stat` returns some pair that
reproduces exactly that observed value; it never returns `none` on a
value produced by the forward formula. -/
theorem c1_inverse_consistency (base level iv ev : ℕ) (m : ℚ) (is_hp : Bool)
    (hlevel1 : 1 ≤ level) (hlevel2 : level ≤ 100) (hiv : iv ≤ 31)
    (hev : ev ≤ 252) (hev4 : 4 ∣ ev)
    (hm : m = mkRat 9 10 ∨ m = 1 ∨ m = mkRat 11 10) :
    ∃ p : ℕ × ℕ,
      reverse_calc_iv_ev_for_stat (calc_stat base iv ev level m is_hp)
        base level m is_hp 31 = some p ∧
      calc_stat base p.1 p.2 level m is_hp = calc_stat base iv ev level m is_hp := by
  have hmem : (iv, ev) ∈ solutionsList (calc_stat base iv ev level m is_hp)
      base level m is_hp 31 :=
    mem_solutionsList.mpr ⟨hiv, hev4, hev, rfl⟩
  obtain ⟨x, hx⟩ := reverse_calc_isSome hmem
  obtain ⟨hxmem, -⟩ := reverse_calc_some hx
  exact ⟨x, hx, (mem_solutionsList.mp hxmem).2.2.2⟩

/-- Witness for C1 at the spec's concrete scenario 1: base 100, iv 31,
ev 252, level 100, multiplier 1.1, non-HP (observed value 328). -/
theorem c1_inverse_consistency_witness :
    (1 ≤ 100 ∧ 100 ≤ 100 ∧ 31 ≤ 31 ∧ 252 ≤ 252 ∧ 4 ∣ 252 ∧
      (mkRat 11 10 = mkRat 9 10 ∨ mkRat 11 10 = 1 ∨ mkRat 11 10 = mkRat 11 10)) ∧
    ∃ p : ℕ × ℕ,
      reverse_calc_iv_ev_for_stat (calc_stat 100 31 252 100 (mkRat 11 10) false)
        100 100 (mkRat 11 10) false 31 = some p ∧
      calc_stat 100 p.1 p.2 100 (mkRat 11 10) false =
        calc_stat 100 31 252 100 (mkRat 11 10) false :=
  ⟨by decide,
   c1_inverse_consistency 100 100 31 252 (mkRat 11 10) false (by decide)
     (by decide) (by decide) (by decide) (by decide) (by decide)⟩

/-- C2: tie-break correctness.  Whenever the reverse solver answers
`some (i, e)`, the pair `(i, e)` matches the observed value with
`i ≤ max_iv`, `e` a multiple of 4 at most 252, and among all matching
pairs the returned `i` is maximal and, among pairs sharing that `i`,
the returned `e` is minimal. -/
theorem c2_tie_break (observed : ℤ) (base level : ℕ) (m : ℚ) (is_hp : Bool)
    (max_iv i e : ℕ)
    (h : reverse_calc_iv_ev_for_stat observed base level m is_hp max_iv =
      some (i, e)) :
    (i ≤ max_iv ∧ 4 ∣ e ∧ e ≤ 252 ∧ calc_stat base i e level m is_hp = observed) ∧
    ∀ i' e', i' ≤ max_iv → 4 ∣ e' → e' ≤ 252 →
      calc_stat base i' e' level m is_hp = observed →
      i' ≤ i ∧ (i' = i → e ≤ e') := by
  obtain ⟨hmem, hmin⟩ := reverse_calc_some h
  refine ⟨mem_solutionsList.mp hmem, ?_⟩
  intro i' e' hi' hdvd' hle' hcalc'
  have hy : (i', e') ∈ solutionsList observed base level m is_hp max_iv :=
    mem_solutionsList.mpr ⟨hi', hdvd', hle', hcalc'⟩
  have := hmin (i', e') hy
  simp only [solRel] at this
  omega

/-- Witness for C2 at the spec's concrete scenario 4: observed 80,
base 50, level 50, neutral multiplier, non-HP — multiple raw matches,
tie-broken to `some (31, 76)`. -/
theorem c2_tie_break_witness :
    reverse_calc_iv_ev_for_stat 80 50 50 1 false 31 = some (31, 76) ∧
    ((31 ≤ 31 ∧ 4 ∣ 76 ∧ 76 ≤ 252 ∧ calc_stat 50 31 76 50 1 false = 80) ∧
     ∀ i' e', i' ≤ 31 → 4 ∣ e' → e' ≤ 252 →
       calc_stat 50 i' e' 50 1 false = 80 →
       i' ≤ 31 ∧ (i' = 31 → 76 ≤ e')) :=
  ⟨by decide, c2_tie_break 80 50 50 1 false 31 31 76 (by decide)⟩

/-- C7 (counterexample): the "assume IV fixed" secondary mode is not
equivalent to the solver with `max_iv = knownIV`.  For observed 210,
base 50, level 100, neutral multiplier, HP, knownIV = 31: the
fixed-IV EV scan finds no EV and yields `None`, while
`reverse_calc_iv_ev_for_stat` with `max_iv = 31` still scans the lower
IVs and returns `some (0, 0)`. -/
theorem c7_counterexample :
    (ev_only_scan 210 50 31 100 1 true).map (fun e => ((31 : ℕ), e)) = none ∧
    reverse_calc_iv_ev_for_stat 210 50 100 1 true 31 = some (0, 0) := by
  constructor
  · decide
  · decide

/-- C7 (amended): the agreement that does hold.  Whenever the fixed-IV
scan at IV `k` finds its first matching EV `e`, the full solver with
`max_iv = k` returns exactly `some (k, e)`; the two modes can differ
only when the fixed-IV scan returns `None`, in which case the solver
may still return a pair with a smaller IV. -/
theorem c7_secondary_mode (observed : ℤ) (base level k e : ℕ) (m : ℚ)
    (is_hp : Bool)
    (h : ev_only_scan observed base k level m is_hp = some e) :
    reverse_calc_iv_ev_for_stat observed base level m is_hp k = some (k, e) := by
  have hpe : calc_stat base k e level m is_hp = observed := by
    have := List.find?_some h
    simpa using this
  have hemem : e ∈ evRange := List.mem_of_find?_eq_some h
  have hmem : (k, e) ∈ solutionsList observed base level m is_hp k :=
    mem_solutionsList.mpr
      ⟨le_refl k, (mem_evRange.mp hemem).1, (mem_evRange.mp hemem).2, hpe⟩
  obtain ⟨x, hx⟩ := reverse_calc_isSome hmem
  obtain ⟨hxmem, hmin⟩ := reverse_calc_some hx
  obtain ⟨hx1, hxdvd, hxle, hxcalc⟩ := mem_solutionsList.mp hxmem
  have hrel := hmin (k, e) hmem
  simp only [solRel] at hrel
  have hxk : x.1 = k := by omega
  have hx2e : x.2 ≤ e := by omega
  have hex2 : e ≤ x.2 := by
    refine find?_min_of_sorted evRange_sorted h x.2
      (mem_evRange.mpr ⟨hxdvd, hxle⟩) ?_
    rw [← hxk]
    simp [hxcalc]
  have : x = (k, e) := by
    obtain ⟨x1, x2⟩ := x
    simp only at hxk hx2e hex2
    simp [hxk]
    omega
  rw [hx, this]

/-- Witness for C7 (amended): observed 250, base 50, level 100,
neutral multiplier, HP, knownIV 31 — the fixed scan finds EV 36 and
the solver with `max_iv = 31` returns `some (31, 36)`. -/
theorem c7_secondary_mode_witness :
    ev_only_scan 250 50 31 100 1 true = some 36 ∧
    reverse_calc_iv_ev_for_stat 250 50 100 1 true 31 = some (31, 36) :=
  ⟨by decide, c7_secondary_mode 250 50 100 31 36 1 true (by decide)⟩

/-! ### Helper lemmas about the EV budget normalizer -/

/-- The scan accumulator value never decreases and dominates every
scanned value. -/
lemma findMax_le (l : List (StatKey × ℕ)) :
    ∀ acc : Option StatKey × ℕ,
      acc.2 ≤ (l.foldl findMaxStep acc).2 ∧
      ∀ p ∈ l, p.2 ≤ (l.foldl findMaxStep acc).2 := by
  induction l with
  | nil => intro acc; simp
  | cons q t ih =>
    intro acc
    have hstep1 : acc.2 ≤ (findMaxStep acc q).2 := by
      simp only [findMaxStep]
      split
      · exact Nat.le_of_lt (by assumption)
      · exact le_refl _
    have hstep2 : q.2 ≤ (findMaxStep acc q).2 := by
      simp only [findMaxStep]
      split
      · exact le_refl _
      · exact Nat.le_of_not_lt (by assumption)
    obtain ⟨h1, h2⟩ := ih (findMaxStep acc q)
    refine ⟨le_trans hstep1 h1, ?_⟩
    intro p hp
    rw [List.mem_cons] at hp
    rcases hp with rfl | hp
    · exact le_trans hstep2 h1
    · exact h2 p hp

/-- The scan either keeps its accumulator or returns some scanned pair
with a strictly larger value. -/
lemma findMax_cases (l : List (StatKey × ℕ)) :
    ∀ acc : Option StatKey × ℕ,
      l.foldl findMaxStep acc = acc ∨
      ∃ p ∈ l, l.foldl findMaxStep acc = (some p.1, p.2) ∧ acc.2 < p.2 := by
  induction l with
  | nil => intro acc; left; rfl
  | cons q t ih =>
    intro acc
    by_cases hq : acc.2 < q.2
    · have hstep : findMaxStep acc q = (some q.1, q.2) := by
        simp [findMaxStep, hq]
      rcases ih (findMaxStep acc q) with h | ⟨p, hp, h, hlt⟩
      · right
        exact ⟨q, List.mem_cons_self q t, by rw [List.foldl_cons, h, hstep], hq⟩
      · right
        refine ⟨p, List.mem_cons_of_mem q hp, by rw [List.foldl_cons, h], ?_⟩
        rw [hstep] at hlt
        omega
    · have hstep : findMaxStep acc q = acc := by
        simp [findMaxStep, hq]
      rcases ih (findMaxStep acc q) with h | ⟨p, hp, h, hlt⟩
      · left; rw [List.foldl_cons, h, hstep]
      · right
        refine ⟨p, List.mem_cons_of_mem q hp, by rw [List.foldl_cons, h], ?_⟩
        rw [hstep] at hlt
        exact hlt

/-- A `none` scan result means every scanned value was 0. -/
lemma findMax_none {l : List (StatKey × ℕ)} (h : (findMax l).1 = none) :
    ∀ p ∈ l, p.2 = 0 := by
  intro p hp
  rcases findMax_cases l (none, 0) with heq | ⟨q, _, heq, _⟩
  · have heq' : findMax l = (none, 0) := heq
    have hle := (findMax_le l (none, 0)).2 p hp
    rw [show l.foldl findMaxStep (none, 0) = findMax l from rfl, heq'] at hle
    simp at hle
    exact hle
  · have heq' : findMax l = (some q.1, q.2) := heq
    rw [heq'] at h
    simp at h

/-- A `some` scan result is a scanned pair with a positive value. -/
lemma findMax_some {l : List (StatKey × ℕ)} {st : StatKey} {m : ℕ}
    (h : findMax l = (some st, m)) : (st, m) ∈ l ∧ 0 < m := by
  rcases findMax_cases l (none, 0) with heq | ⟨q, hq, heq, hlt⟩
  · have heq' : findMax l = (none, 0) := heq
    rw [h] at heq'
    simp at heq'
  · have heq' : findMax l = (some q.1, q.2) := heq
    rw [h] at heq'
    simp only [Prod.mk.injEq, Option.some.injEq] at heq'
    obtain ⟨h1, h2⟩ := heq'
    have hq2 : 0 < q.2 := by simpa using hlt
    have hpair : (st, m) = q := by rw [h1, h2]
    rw [hpair]
    exact ⟨hq, by omega⟩

/-- Updating one stat changes the total by exactly the difference. -/
lemma sumEvs_setEv (evs : StatKey → ℕ) (st : StatKey) (v : ℕ) :
    sumEvs (setEv evs st v) + evs st = sumEvs evs + v := by
  cases st <;> simp [sumEvs, STAT_KEYS, setEv] <;> omega

/-- The loop invariant of `clamp_ev_distribution`: starting from a
mapping of multiples of 4 whose true sum is `total`, with enough fuel,
the loop ends with sum at most 510, all values multiples of 4, and
each value at most its input value. -/
lemma clampLoop_spec :
    ∀ (fuel : ℕ) (evs : StatKey → ℕ) (total : ℕ),
      (∀ s, 4 ∣ evs s) → total = sumEvs evs → total ≤ 510 + 4 * fuel →
      sumEvs (clampLoop fuel evs total) ≤ 510 ∧
        ∀ s, 4 ∣ clampLoop fuel evs total s ∧ clampLoop fuel evs total s ≤ evs s := by
  intro fuel
  induction fuel with
  | zero =>
    intro evs total h4 hsum hle
    simp only [clampLoop]
    exact ⟨by omega, fun s => ⟨h4 s, le_refl _⟩⟩
  | succ n ih =>
    intro evs total h4 hsum hle
    by_cases hgt : 510 < total
    · rcases hfm : findMax (STAT_KEYS.map fun s => (s, evs s)) with ⟨ost, m⟩
      cases ost with
      | none =>
        exfalso
        have hz : ∀ s ∈ STAT_KEYS, evs s = 0 := by
          intro s hs
          exact findMax_none (by rw [hfm])
            (s, evs s) (List.mem_map.mpr ⟨s, hs, rfl⟩)
        have hzero : sumEvs evs = 0 := by
          simp only [sumEvs]
          rw [List.sum_eq_zero]
          intro x hx
          obtain ⟨s, hs, rfl⟩ := List.mem_map.mp hx
          exact hz s hs
        omega
      | some st =>
        obtain ⟨hmem, hpos⟩ := findMax_some hfm
        obtain ⟨s₀, hs₀, heq⟩ := List.mem_map.mp hmem
        have hst : evs st = m := by
          obtain ⟨h1, h2⟩ := Prod.mk.injEq .. ▸ heq
          subst h1; exact h2
        have hst4 : 4 ≤ evs st := by
          rcases h4 st with ⟨c, hc⟩
          omega
        have hstep : clampLoop (n + 1) evs total =
            clampLoop n (setEv evs st (max 0 (evs st - 4))) (total - 4) := by
          simp only [clampLoop, hfm, if_pos hgt]
          rw [if_neg (by omega)]
        have hmax : max 0 (evs st - 4) = evs st - 4 := by omega
        have h4' : ∀ s, 4 ∣ setEv evs st (max 0 (evs st - 4)) s := by
          intro s
          simp only [setEv, hmax]
          split
          · exact Nat.dvd_sub' (h4 st) (dvd_refl 4)
          · exact h4 s
        have hsum' : total - 4 = sumEvs (setEv evs st (max 0 (evs st - 4))) := by
          have := sumEvs_setEv evs st (max 0 (evs st - 4))
          omega
        have hle' : total - 4 ≤ 510 + 4 * n := by omega
        obtain ⟨ihsum, ihall⟩ := ih _ _ h4' hsum' hle'
        rw [hstep]
        refine ⟨ihsum, fun s => ⟨(ihall s).1, le_trans (ihall s).2 ?_⟩⟩
        by_cases hs : s = st
        · subst hs
          simp [setEv, hmax, Nat.sub_le]
        · simp only [setEv, if_neg hs]
          exact le_refl _
    · have hstop : clampLoop (n + 1) evs total = evs := by
        simp only [clampLoop, if_neg hgt]
      rw [hstop]
      exact ⟨by omega, fun s => ⟨h4 s, le_refl _⟩⟩

/-! ### Claim theorems: the EV budget normalizer -/

/-- C3: budget invariant.  For any EV mapping of non-negative
multiples of 4 over the six stat keys, `clamp_ev_distribution`
produces a mapping whose total is at most 510 and whose every value is
still a multiple of 4 (hence non-negative) and at most the
corresponding input value. -/
theorem c3_budget_invariant (evs : StatKey → ℕ) (h4 : ∀ s, 4 ∣ evs s) :
    sumEvs (clamp_ev_distribution evs) ≤ 510 ∧
    ∀ s, 4 ∣ clamp_ev_distribution evs s ∧
      clamp_ev_distribution evs s ≤ evs s := by
  unfold clamp_ev_distribution
  by_cases h : sumEvs evs ≤ 510
  · simp only [if_pos h]
    exact ⟨h, fun s => ⟨h4 s, le_refl _⟩⟩
  · simp only [if_neg h]
    exact clampLoop_spec (sumEvs evs) evs (sumEvs evs) h4 rfl (by omega)

/-- Witness for C3 at the 252/252/252 scenario input. -/
theorem c3_budget_invariant_witness :
    (∀ s, 4 ∣ evs756 s) ∧
    (sumEvs (clamp_ev_distribution evs756) ≤ 510 ∧
     ∀ s, 4 ∣ clamp_ev_distribution evs756 s ∧
       clamp_ev_distribution evs756 s ≤ evs756 s) :=
  ⟨by decide, c3_budget_invariant evs756 (by decide)⟩

/-- C4 (counterexample): the clamp scenario does not reach a total of
exactly 510.  Starting from total 756 and decrementing 4 at a time
while the total exceeds 510 lands on 508 (756 and 510 differ by 246,
which is not a multiple of 4). -/
theorem c4_counterexample :
    sumEvs (clamp_ev_distribution evs756) ≠ 510 := by decide

/-- C4 (amended): the exact outcome of the clamp scenario.  The input
{HP 0, Atk 252, Def 0, SpA 252, SpD 0, Spe 252} (total 756) is reduced
to total 508 — the first total at most 510 reachable from 756 in steps
of 4 — by repeatedly decrementing 4 from the stat currently holding
the strictly maximal EV, ties resolved by the fixed enumeration order,
ending with Atk 168, SpA 168, Spe 172 and the rest 0. -/
theorem c4_clamp_scenario :
    sumEvs (clamp_ev_distribution evs756) = 508 ∧
    clamp_ev_distribution evs756 StatKey.hp = 0 ∧
    clamp_ev_distribution evs756 StatKey.atk = 168 ∧
    clamp_ev_distribution evs756 StatKey.df = 0 ∧
    clamp_ev_distribution evs756 StatKey.spa = 168 ∧
    clamp_ev_distribution evs756 StatKey.spd = 0 ∧
    clamp_ev_distribution evs756 StatKey.spe = 172 := by decide

/-! ### Helper lemmas about name resolution -/

/-- Lowering preserves emptiness: only the empty string lowers to the
empty string. -/
lemma pyLower_eq_empty {c : String} (h : pyLower c = "") : c = "" := by
  have hd : c.data.map Char.toLower = [] := congrArg String.data h
  have hnil : c.data = [] := List.map_eq_nil_iff.mp hd
  obtain ⟨d⟩ := c
  have : d = [] := hnil
  subst this
  rfl

/-! ### Claim theorems: name resolution -/

/-- C5 (counterexample): autocorrect mode "off" (3) does not always
return the trimmed raw input.  With raw input "jolly" and canonical
list ["Jolly"], the case-insensitive exact-match layer fires before
the mode is consulted, and the canonical "Jolly" is substituted even
though the trimmed raw input is "jolly". -/
theorem c5_counterexample :
    validate_input (fun _ _ => []) (fun _ => false) "jolly" ["Jolly"] 3 =
      "Jolly" ∧
    pyStrip "jolly" = "jolly" ∧ ("Jolly" : String) ≠ "jolly" := by
  refine ⟨by decide, by decide, by decide⟩

/-- C5 (amended): off-mode passivity holds exactly when neither exact
layer matches.  Under mode 3 (off), if the lower-cased normalized
input matches no canonical entry (case-insensitive dict lookup
misses) and its title-cased form is not in the canonical list, then
`validate_input` returns the trimmed raw input unchanged, for every
fuzzy-matcher behaviour and every interactive answer; when an exact
layer does match, the canonical entry is substituted even in off
mode. -/
theorem c5_off_policy (close_matches : String → List String → List String)
    (says_yes : String → Bool) (user_input : String)
    (valid_list : List String)
    (hexact : lowMapLookup valid_list
      (pyLower (pyStrip (underscoreToSpace (pyStrip user_input)))) = none)
    (htitle : title_case_showdown (pyStrip (underscoreToSpace
      (pyStrip user_input))) ∉ valid_list) :
    validate_input close_matches says_yes user_input valid_list 3 =
      pyStrip user_input := by
  by_cases h0 : user_input = ""
  · subst h0
    rfl
  · simp only [validate_input, if_neg h0, hexact, if_neg htitle]
    split
    · rfl
    · simp

/-- Witness for C5 (amended): raw "qwzx" against ["Jolly"] in off
mode returns "qwzx". -/
theorem c5_off_policy_witness :
    (lowMapLookup ["Jolly"]
      (pyLower (pyStrip (underscoreToSpace (pyStrip "qwzx")))) = none) ∧
    (title_case_showdown (pyStrip (underscoreToSpace (pyStrip "qwzx"))) ∉
      (["Jolly"] : List String)) ∧
    validate_input (fun _ _ => []) (fun _ => false) "qwzx" ["Jolly"] 3 =
      pyStrip "qwzx" :=
  ⟨by decide, by decide,
   c5_off_policy (fun _ _ => []) (fun _ => false) "qwzx" ["Jolly"]
     (by decide) (by decide)⟩

/-- C6: resolution identity.  If the raw input, trimmed and with
underscores replaced by spaces, equals (ignoring case) a canonical
entry `c` that is the unique entry with its lower-casing, then
`validate_input` returns `c` verbatim under every autocorrect mode
(in particular under prompt 1, silent 2 and off 3), for every
fuzzy-matcher behaviour and every interactive answer. -/
theorem c6_resolution_identity
    (close_matches : String → List String → List String)
    (says_yes : String → Bool) (user_input : String)
    (valid_list : List String) (mode : ℕ) (c : String)
    (hc : c ∈ valid_list)
    (heq : pyLower (pyStrip (underscoreToSpace (pyStrip user_input))) =
      pyLower c)
    (huniq : ∀ v ∈ valid_list, pyLower v = pyLower c → v = c) :
    validate_input close_matches says_yes user_input valid_list mode = c := by
  by_cases h0 : user_input = ""
  · subst h0
    have hc0 : c = "" := pyLower_eq_empty (by rw [← heq]; rfl)
    subst hc0
    rfl
  · have hsome : (valid_list.reverse.find? (fun v =>
        pyLower v == pyLower (pyStrip (underscoreToSpace
          (pyStrip user_input))))).isSome := by
      apply List.find?_isSome.mpr
      refine ⟨c, List.mem_reverse.mpr hc, ?_⟩
      rw [heq]
      simp
    obtain ⟨v, hv⟩ := Option.isSome_iff_exists.mp hsome
    have hpred := List.find?_some hv
    rw [heq] at hpred
    have hveq : pyLower v = pyLower c := by simpa using hpred
    have hvmem : v ∈ valid_list := List.mem_reverse.mp
      (List.mem_of_find?_eq_some hv)
    have hvc : v = c := huniq v hvmem hveq
    have hlook : lowMapLookup valid_list
        (pyLower (pyStrip (underscoreToSpace (pyStrip user_input)))) =
        some c := by
      unfold lowMapLookup
      rw [hv, hvc]
    simp only [validate_input, if_neg h0, hlook]

/-- Witness for C6: raw " jOlLy " against ["Hasty", "Jolly"] resolves
to the canonical "Jolly" under prompt mode. -/
theorem c6_resolution_identity_witness :
    ("Jolly" ∈ (["Hasty", "Jolly"] : List String)) ∧
    (pyLower (pyStrip (underscoreToSpace (pyStrip " jOlLy "))) =
      pyLower "Jolly") ∧
    (∀ v ∈ (["Hasty", "Jolly"] : List String),
      pyLower v = pyLower "Jolly" → v = "Jolly") ∧
    validate_input (fun _ _ => []) (fun _ => false) " jOlLy "
      ["Hasty", "Jolly"] 1 = "Jolly" :=
  ⟨by decide, by decide, by decide,
   c6_resolution_identity (fun _ _ => []) (fun _ => false) " jOlLy "
     ["Hasty", "Jolly"] 1 "Jolly" (by decide) (by decide) (by decide)⟩

/-! ### The floating-point floor embedding, and claims C9 / C10 -/

/-- The integer-division encoding of `⌊n · m + 10⁻⁹⌋` used by the
`calc_stat` embedding. -/
lemma floor_mul_eps (n : ℕ) (m : ℚ) :
    ⌊(n : ℚ) * m + 1 / 1000000000⌋ =
      ((n : ℤ) * m.num * 1000000000 + (m.den : ℤ)) /
        ((m.den : ℤ) * 1000000000) := by
  have hden : ((m.den : ℚ)) ≠ 0 := by
    have := m.pos
    positivity
  have key : (n : ℚ) * m + 1 / 1000000000 =
      (((n : ℤ) * m.num * 1000000000 + (m.den : ℤ) : ℤ) : ℚ) /
        (((m.den * 1000000000 : ℕ) : ℚ)) := by
    conv_lhs => rw [← Rat.num_div_den m]
    push_cast
    field_simp
    try ring
  rw [key, Rat.floor_intCast_div_natCast]
  congr 1

/-- The integer-division form used in `calc_stat`'s non-HP branch is
exactly the rational floor `⌊inner · m + 10⁻⁹⌋` of the source's
`math.floor(inner * nature_mult + 1e-9)`, read in exact rational
arithmetic. -/
lemma calc_stat_eq_floor (base iv ev level : ℕ) (m : ℚ) :
    calc_stat base iv ev level m false =
      ⌊(((2 * base + iv + ev / 4) * level / 100 + 5 : ℕ) : ℚ) * m +
        1 / 1000000000⌋ := by
  rw [floor_mul_eps]
  rfl

/-- C9 (counterexample): the core does not signal invalid arguments.
The call `computeStat(base=100, iv=50, ev=0, level=200, mult=1.0,
isHP=false)` violates the `iv ≤ 31` and `level ≤ 100` preconditions,
yet `calc_stat` silently returns the computed value 505 — the same
value the precondition-respecting call `computeStat(base=235, iv=30,
ev=0, level=100, mult=1.0, isHP=false)` returns, so the bad input is
indistinguishable from a valid one. -/
theorem c9_counterexample :
    (31 < 50 ∧ 100 < 200) ∧
    calc_stat 100 50 0 200 1 false = 505 ∧
    calc_stat 235 30 0 100 1 false = 505 := by
  refine ⟨by decide, by decide, by decide⟩

/-- C9 (amended): precondition-violating calls are fed through the
very same formula with no signalling and no clamping: a call with the
invalid `iv = 32` returns exactly the value of the valid call with
`iv = 0, ev = 128`, for every base, level, multiplier and HP flag. -/
theorem c9_no_validation (base level : ℕ) (m : ℚ) (is_hp : Bool) :
    calc_stat base 32 0 level m is_hp = calc_stat base 0 128 level m is_hp := by
  unfold calc_stat
  rw [show (2 * base + 32 + 0 / 4 : ℕ) = 2 * base + 0 + 128 / 4 from by omega]

/-- C10: unknown natures are silently neutral.  For every nature
argument that is not a key of `NATURE_EFFECTS` — `None`, the empty
string, or any misspelled name — and every stat key, the multiplier
lookup returns exactly 1.0; nothing is signalled to the caller. -/
theorem c10_unknown_nature_neutral (nature : Option String)
    (stat_key : String)
    (h : ∀ p ∈ NATURE_EFFECTS, some p.1 ≠ nature) :
    get_nature_multiplier nature stat_key = 1 := by
  cases nature with
  | none => rfl
  | some n =>
    simp only [get_nature_multiplier]
    by_cases h0 : n = ""
    · rw [if_pos h0]
    · rw [if_neg h0]
      have hfind : NATURE_EFFECTS.find? (fun p => p.1 == n) = none := by
        rw [List.find?_eq_none]
        intro p hp
        have := h p hp
        simp only [ne_eq, Option.some.injEq] at this
        simpa using this
      rw [hfind]

/-- Witness for C10: "Serious" is a real neutral nature absent from
the table; its multiplier for "atk" is 1. -/
theorem c10_unknown_nature_neutral_witness :
    (∀ p ∈ NATURE_EFFECTS, some p.1 ≠ some "Serious") ∧
    get_nature_multiplier (some "Serious") "atk" = 1 :=
  ⟨by decide, c10_unknown_nature_neutral (some "Serious") "atk" (by decide)⟩
